import Mathlib

/-!
# Verification of the Reddit post logger (`src/main.py`)

This file shallowly embeds the core logic of the scraper:

* `nextId?` — the identifier generator `next_id` (main.py lines 70–106),
  with Python's `int()` parsing modelled by `pyInt?` (ASCII fragment) and
  the f-string `f"{n:03d}"` modelled by `pyFmt03`.  A `none` result models
  an uncaught `ValueError` from `int()`.
* `recoverLastId` / `startupLastId` / `startupPending` — the startup
  recovery logic (lines 40–66 and 109).
* `step` — one iteration of the main scraper loop (lines 119–161), with a
  boolean flag modelling whether `doc.save` succeeds.

Theorems then settle the specification's claims about these functions.
-/

/-- ASCII decimal digit test (codepoints 48–57), used both by the model of
Python's `int()` parsing and by the well-formed-label predicate. -/
def isDigitCh (c : Char) : Bool := 48 ≤ c.toNat && c.toNat ≤ 57

/-- Uppercase letter A–Z test (codepoints 65–90). -/
def isUpperAZ (c : Char) : Bool := 65 ≤ c.toNat && c.toNat ≤ 90

/-- Whitespace stripped by Python's `int()` before parsing (ASCII fragment:
space, tab, newline, vertical tab, form feed, carriage return). -/
def pyIsWs (c : Char) : Bool :=
  c.toNat = 32 || c.toNat = 9 || c.toNat = 10 || c.toNat = 11 ||
  c.toNat = 12 || c.toNat = 13

/-- Strip leading and trailing whitespace, as `int()` does. -/
def pyStrip (l : List Char) : List Char :=
  ((l.dropWhile pyIsWs).reverse.dropWhile pyIsWs).reverse

/-- Decimal value of a digit character. -/
def digitVal (c : Char) : Nat := c.toNat - 48

/-- Consume the characters after the leading digit of a Python integer
literal: digits, with single underscores allowed between digits. -/
def undStep : List Char → Nat → Option Nat
  | [], acc => some acc
  | c :: rest, acc =>
    if isDigitCh c then undStep rest (10 * acc + digitVal c)
    else if c = '_' then
      match rest with
      | [] => none
      | d :: rest2 =>
        if isDigitCh d then undStep rest2 (10 * acc + digitVal d) else none
    else none

/-- Parse a nonempty digit sequence (with optional single underscores
between digits), as accepted by Python's `int()` after sign stripping. -/
def undigitsList : List Char → Option Nat
  | [] => none
  | c :: rest => if isDigitCh c then undStep rest (digitVal c) else none

/-- Model of Python's `int(s)` (ASCII fragment): strip whitespace, accept an
optional single sign, then a digit sequence; `none` models `ValueError`. -/
def pyInt? (s : String) : Option Int :=
  match pyStrip s.data with
  | [] => none
  | c :: rest =>
    if c = '+' then (undigitsList rest).map (fun n => (n : Int))
    else if c = '-' then (undigitsList rest).map (fun n => -(n : Int))
    else (undigitsList (c :: rest)).map (fun n => (n : Int))

/-- Character with the next codepoint, the `chr(ord(c) + 1)` of main.py
line 97. -/
def succChar (c : Char) : Char := Char.ofNat (c.toNat + 1)

/-- The prefix-increment while-loop of `next_id` (main.py lines 93–104),
acting on the REVERSED prefix so that the head is the rightmost letter:
a non-`Z` letter is bumped and the rest kept (`break`); a `Z` becomes `A`
and the carry continues; running past the leftmost letter inserts an `A`
(the `else` clause of the `while`). -/
def incRev : List Char → List Char
  | [] => ['A']
  | c :: rest => if c = 'Z' then 'A' :: incRev rest else succChar c :: rest

/-- Prefix increment on a prefix in reading order. -/
def incPfx (l : List Char) : List Char := (incRev l.reverse).reverse

/-- Digit character for a value 0–9 (`f"{n:03d}"` rendering). -/
def digitChar (n : Nat) : Char := Char.ofNat (48 + n)

/-- Fuelled decimal rendering of a natural number (most significant digit
first); the fuel is an upper bound on the recursion depth. -/
def toDecimalAux : Nat → Nat → List Char
  | 0, _ => []
  | fuel + 1, n =>
    if n < 10 then [digitChar n]
    else toDecimalAux fuel (n / 10) ++ [digitChar (n % 10)]

/-- Decimal rendering of a natural number. -/
def toDecimal (n : Nat) : List Char := toDecimalAux (n + 1) n

/-- Model of Python's `f"{n:03d}"`: decimal rendering left-padded with `'0'`
to width 3; for negative numbers the sign counts toward the width. -/
def pyFmt03 (n : Int) : List Char :=
  if n < 0 then
    '-' :: (List.replicate (2 - (toDecimal n.natAbs).length) '0' ++ toDecimal n.natAbs)
  else
    List.replicate (3 - (toDecimal n.natAbs).length) '0' ++ toDecimal n.natAbs

/-- The function `next_id` of main.py lines 70–106.  `none` input models Python `None`;
the empty string is also falsy (`if not last`).  `some s` is split as
`s[:-3]` / `s[-3:]`, the suffix parsed by `int()`; a `none` result models
the uncaught `ValueError` when that parse fails. -/
def nextId? : Option String → Option String
  | none => some "A001"
  | some s =>
    if s = "" then some "A001"
    else
      match pyInt? ⟨s.data.drop (s.data.length - 3)⟩ with
      | none => none
      | some v =>
        if v + 1 > 999 then
          some ⟨(if s.data.take (s.data.length - 3) = [] then ['A']
                 else incPfx (s.data.take (s.data.length - 3))) ++ pyFmt03 1⟩
        else
          some ⟨s.data.take (s.data.length - 3) ++ pyFmt03 (v + 1)⟩

/-- The alphabetic part `s[:-3]` of a label. -/
def labelPfx (s : String) : List Char := s.data.take (s.data.length - 3)

/-- The numeric part `s[-3:]` of a label. -/
def labelDigits (s : String) : List Char := s.data.drop (s.data.length - 3)

/-- Value of a digit string, most significant digit first. -/
def digitsToNat (l : List Char) : Nat :=
  l.foldl (fun a c => 10 * a + digitVal c) 0

/-- Numeric suffix value of a label. -/
def suffixVal (s : String) : Nat := digitsToNat (labelDigits s)

/-- Well-formed label: at least three characters, uppercase-letter part,
three-digit numeric part with value in 001–999. -/
def wellFormedLabel (s : String) : Prop :=
  3 ≤ s.data.length ∧ (∀ c ∈ labelPfx s, isUpperAZ c = true) ∧
  (∀ c ∈ labelDigits s, isDigitCh c = true) ∧
  1 ≤ suffixVal s ∧ suffixVal s ≤ 999

instance (s : String) : Decidable (wellFormedLabel s) := by
  unfold wellFormedLabel; infer_instance

/-- Strict lexicographic order on equal-footing character lists, by
codepoint; a proper initial segment counts as smaller. -/
def lexLt : List Char → List Char → Bool
  | _, [] => false
  | [], _ :: _ => true
  | a :: as, b :: bs =>
    if a.toNat < b.toNat then true
    else if a.toNat = b.toNat then lexLt as bs
    else false

/-- The ordering of §3 of the spec: alphabetic parts compared first by
length, then lexicographically, ties broken by the numeric suffix. -/
def labelLt (a b : String) : Prop :=
  (labelPfx a).length < (labelPfx b).length ∨
  ((labelPfx a).length = (labelPfx b).length ∧ lexLt (labelPfx a) (labelPfx b) = true) ∨
  (labelPfx a = labelPfx b ∧ suffixVal a < suffixVal b)

instance (a b : String) : Decidable (labelLt a b) := by
  unfold labelLt; infer_instance

/-- The label sequence obtained by iterating `next_id` from `None`
(`none` models a crash along the way). -/
def seqO : Nat → Option String
  | 0 => nextId? none
  | n + 1 =>
    match seqO n with
    | none => none
    | some s => nextId? (some s)

/-! ## Basic lemmas about the `int()` model on digit strings -/

lemma dropWhile_of_forall_not {p : Char → Bool} :
    ∀ l : List Char, (∀ c ∈ l, p c = false) → l.dropWhile p = l := by
  intro l h
  cases l with
  | nil => rfl
  | cons c rest => simp [List.dropWhile, h c (by simp)]

lemma not_ws_of_digit {c : Char} (h : isDigitCh c = true) : pyIsWs c = false := by
  simp only [isDigitCh, Bool.and_eq_true, decide_eq_true_eq] at h
  simp only [pyIsWs, Bool.or_eq_false_iff, decide_eq_false_iff_not]
  omega

lemma pyStrip_of_digits (l : List Char) (h : ∀ c ∈ l, isDigitCh c = true) :
    pyStrip l = l := by
  have h1 : ∀ c ∈ l, pyIsWs c = false := fun c hc => not_ws_of_digit (h c hc)
  unfold pyStrip
  rw [dropWhile_of_forall_not l h1,
    dropWhile_of_forall_not l.reverse (fun c hc => h1 c (List.mem_reverse.mp hc)),
    List.reverse_reverse]

lemma undStep_of_digits :
    ∀ (l : List Char) (acc : Nat), (∀ c ∈ l, isDigitCh c = true) →
      undStep l acc = some (l.foldl (fun a c => 10 * a + digitVal c) acc) := by
  intro l
  induction l with
  | nil => intro acc _; rfl
  | cons c rest ih =>
    intro acc h
    have hc : isDigitCh c = true := h c (by simp)
    unfold undStep
    rw [if_pos hc, ih _ (fun d hd => h d (by simp [hd]))]
    rfl

lemma pyInt_of_digits (l : List Char) (hne : l ≠ [])
    (h : ∀ c ∈ l, isDigitCh c = true) :
    pyInt? ⟨l⟩ = some ((digitsToNat l : Nat) : Int) := by
  have hdata : (String.mk l).data = l := rfl
  cases l with
  | nil => exact absurd rfl hne
  | cons c rest =>
    have hc : isDigitCh c = true := h c (by simp)
    have hcp : c ≠ '+' := by
      intro hcp
      rw [hcp] at hc
      simp [isDigitCh] at hc
    have hcm : c ≠ '-' := by
      intro hcm
      rw [hcm] at hc
      simp [isDigitCh] at hc
    simp only [pyInt?, hdata, pyStrip_of_digits _ h, if_neg hcp, if_neg hcm,
      undigitsList, hc, if_pos]
    rw [undStep_of_digits rest (digitVal c) (fun d hd => h d (by simp [hd]))]
    simp [digitsToNat, List.foldl_cons]

/-! ## Decimal rendering lemmas -/

lemma toNat_ofNat_of_lt {n : Nat} (h : n < 55296) : (Char.ofNat n).toNat = n := by
  rw [Char.ofNat, dif_pos (Or.inl h)]
  rfl

lemma digitChar_toNat {n : Nat} (h : n < 10) : (digitChar n).toNat = 48 + n := by
  unfold digitChar
  exact toNat_ofNat_of_lt (by omega)

lemma isDigitCh_digitChar {n : Nat} (h : n < 10) : isDigitCh (digitChar n) = true := by
  simp only [isDigitCh, digitChar_toNat h, Bool.and_eq_true, decide_eq_true_eq]
  omega

lemma digitVal_digitChar {n : Nat} (h : n < 10) : digitVal (digitChar n) = n := by
  simp [digitVal, digitChar_toNat h]

lemma digitsToNat_append_singleton (xs : List Char) (c : Char) :
    digitsToNat (xs ++ [c]) = 10 * digitsToNat xs + digitVal c := by
  simp [digitsToNat, List.foldl_append]

lemma digitsToNat_replicate_zero_append (k : Nat) (t : List Char) :
    digitsToNat (List.replicate k '0' ++ t) = digitsToNat t := by
  induction k with
  | zero => rfl
  | succ k ih =>
    have : digitVal '0' = 0 := by decide
    simp only [List.replicate_succ, List.cons_append, digitsToNat, List.foldl_cons]
    simpa [digitsToNat, this] using ih

lemma toDecimalAux_spec :
    ∀ fuel n, n < fuel →
      (∀ c ∈ toDecimalAux fuel n, isDigitCh c = true) ∧
      digitsToNat (toDecimalAux fuel n) = n ∧ toDecimalAux fuel n ≠ [] := by
  intro fuel
  induction fuel with
  | zero => intro n h; omega
  | succ fuel ih =>
    intro n h
    by_cases h10 : n < 10
    · refine ⟨?_, ?_, by simp [toDecimalAux, h10]⟩
      · intro c hc
        simp only [toDecimalAux, if_pos h10, List.mem_singleton] at hc
        subst hc
        exact isDigitCh_digitChar h10
      · simp [toDecimalAux, if_pos h10, digitsToNat, digitVal_digitChar h10]
    · have hd : n / 10 < fuel := by omega
      obtain ⟨ha, hv, hne⟩ := ih (n / 10) hd
      refine ⟨?_, ?_, by simp [toDecimalAux, h10]⟩
      · intro c hc
        simp only [toDecimalAux, if_neg h10, List.mem_append, List.mem_singleton] at hc
        rcases hc with hc | hc
        · exact ha c hc
        · subst hc
          exact isDigitCh_digitChar (Nat.mod_lt n (by omega))
      · simp only [toDecimalAux, if_neg h10, digitsToNat_append_singleton, hv,
          digitVal_digitChar (Nat.mod_lt n (by omega))]
        omega

lemma toDecimalAux_len_le_1 :
    ∀ fuel n, n < fuel → n < 10 → (toDecimalAux fuel n).length ≤ 1 := by
  intro fuel n h h10
  cases fuel with
  | zero => omega
  | succ fuel => simp [toDecimalAux, if_pos h10]

lemma toDecimalAux_len_le_2 :
    ∀ fuel n, n < fuel → n < 100 → (toDecimalAux fuel n).length ≤ 2 := by
  intro fuel
  induction fuel with
  | zero => intro n h; omega
  | succ fuel _ =>
    intro n h h100
    by_cases h10 : n < 10
    · simp [toDecimalAux, if_pos h10]
    · have := toDecimalAux_len_le_1 fuel (n / 10) (by omega) (by omega)
      simp only [toDecimalAux, if_neg h10, List.length_append, List.length_singleton]
      omega

lemma toDecimalAux_len_le_3 :
    ∀ fuel n, n < fuel → n < 1000 → (toDecimalAux fuel n).length ≤ 3 := by
  intro fuel
  induction fuel with
  | zero => intro n h; omega
  | succ fuel _ =>
    intro n h h1000
    by_cases h10 : n < 10
    · simp [toDecimalAux, if_pos h10]
    · have := toDecimalAux_len_le_2 fuel (n / 10) (by omega) (by omega)
      simp only [toDecimalAux, if_neg h10, List.length_append, List.length_singleton]
      omega

/-- For 0 ≤ n ≤ 999, `f"{n:03d}"` is exactly three digit characters whose
decimal value is `n`. -/
lemma pyFmt03_spec (n : Nat) (h : n ≤ 999) :
    (pyFmt03 (n : Int)).length = 3 ∧ (∀ c ∈ pyFmt03 (n : Int), isDigitCh c = true) ∧
    digitsToNat (pyFmt03 (n : Int)) = n := by
  have hneg : ¬ ((n : Int) < 0) := by omega
  have habs : (n : Int).natAbs = n := Int.natAbs_ofNat n
  obtain ⟨ha, hv, _⟩ := toDecimalAux_spec (n + 1) n (Nat.lt_succ_self n)
  have hlen : (toDecimal n).length ≤ 3 :=
    toDecimalAux_len_le_3 (n + 1) n (Nat.lt_succ_self n) (by omega)
  unfold pyFmt03
  rw [if_neg hneg, habs]
  refine ⟨?_, ?_, ?_⟩
  · simp only [List.length_append, List.length_replicate]
    omega
  · intro c hc
    rcases List.mem_append.mp hc with hc | hc
    · rw [List.eq_of_mem_replicate hc]
      decide
    · exact ha c hc
  · rw [digitsToNat_replicate_zero_append]
    exact hv

/-! ## The prefix increment and the label ordering -/

lemma char_toNat_inj {a b : Char} (h : a.toNat = b.toNat) : a = b :=
  Char.eq_of_val_eq (UInt32.ext h)

lemma upper_ne_Z_bounds {c : Char} (hu : isUpperAZ c = true) (hz : c ≠ 'Z') :
    65 ≤ c.toNat ∧ c.toNat ≤ 89 := by
  simp only [isUpperAZ, Bool.and_eq_true, decide_eq_true_eq] at hu
  refine ⟨hu.1, ?_⟩
  rcases Nat.lt_or_ge c.toNat 90 with h | h
  · omega
  · exact absurd (char_toNat_inj (show c.toNat = Char.toNat 'Z' by
      have : Char.toNat 'Z' = 90 := rfl
      omega)) hz

lemma succChar_toNat {c : Char} (h : c.toNat ≤ 89) :
    (succChar c).toNat = c.toNat + 1 := by
  unfold succChar
  exact toNat_ofNat_of_lt (by omega)

lemma isUpperAZ_succChar {c : Char} (hu : isUpperAZ c = true) (hz : c ≠ 'Z') :
    isUpperAZ (succChar c) = true := by
  obtain ⟨h1, h2⟩ := upper_ne_Z_bounds hu hz
  simp only [isUpperAZ, succChar_toNat h2, Bool.and_eq_true, decide_eq_true_eq]
  omega

/-- Structure of one run of the carry loop on the reversed prefix: either
every letter was `Z` (carry past the leftmost letter), or the leading
(i.e. rightmost) block of `Z`s rolls over to `A`s and the first non-`Z`
letter is bumped. -/
lemma incRev_spec :
    ∀ l : List Char, (∀ c ∈ l, isUpperAZ c = true) →
      (l = List.replicate l.length 'Z' ∧
        incRev l = List.replicate (l.length + 1) 'A') ∨
      (∃ n c rest, l = List.replicate n 'Z' ++ c :: rest ∧ isUpperAZ c = true ∧
        c ≠ 'Z' ∧ incRev l = List.replicate n 'A' ++ succChar c :: rest) := by
  intro l
  induction l with
  | nil => intro _; left; exact ⟨rfl, rfl⟩
  | cons c rest ih =>
    intro h
    by_cases hz : c = 'Z'
    · subst hz
      rcases ih (fun d hd => h d (by simp [hd])) with ⟨h1, h2⟩ |
        ⟨n, d, tail, h1, hu, hne, h2⟩
      · left
        constructor
        · conv_lhs => rw [h1]
          simp [List.replicate_succ]
        · simp [incRev, h2, List.replicate_succ]
      · right
        refine ⟨n + 1, d, tail, ?_, hu, hne, ?_⟩
        · rw [List.replicate_succ, List.cons_append]
          exact congrArg _ h1
        · simp [incRev, h2, List.replicate_succ]
    · right
      exact ⟨0, c, rest, by simp, h c (by simp), hz, by simp [incRev, hz]⟩

lemma lexLt_cons_iff {x y : Char} {as bs : List Char} :
    lexLt (x :: as) (y :: bs) = true ↔
      x.toNat < y.toNat ∨ (x.toNat = y.toNat ∧ lexLt as bs = true) := by
  simp only [lexLt]
  split_ifs with h1 h2
  · simp [h1]
  · simp [h1, h2]
  · simp [h1, h2]

lemma lexLt_middle (a : List Char) {x y : Char} (b b' : List Char)
    (h : x.toNat < y.toNat) : lexLt (a ++ x :: b) (a ++ y :: b') = true := by
  induction a with
  | nil => exact lexLt_cons_iff.mpr (Or.inl h)
  | cons d a' ih =>
    exact lexLt_cons_iff.mpr (Or.inr ⟨rfl, ih⟩)

lemma lexLt_trans :
    ∀ a b c : List Char, lexLt a b = true → lexLt b c = true →
      lexLt a c = true := by
  intro a
  induction a with
  | nil =>
    intro b c hab hbc
    cases b with
    | nil => simp [lexLt] at hab
    | cons y bs =>
      cases c with
      | nil => simp [lexLt] at hbc
      | cons z cs => rfl
  | cons x as ih =>
    intro b c hab hbc
    cases b with
    | nil => simp [lexLt] at hab
    | cons y bs =>
      cases c with
      | nil => simp [lexLt] at hbc
      | cons z cs =>
        rcases lexLt_cons_iff.mp hab with h1 | ⟨h1, h1'⟩ <;>
          rcases lexLt_cons_iff.mp hbc with h2 | ⟨h2, h2'⟩
        · exact lexLt_cons_iff.mpr (Or.inl (by omega))
        · exact lexLt_cons_iff.mpr (Or.inl (by omega))
        · exact lexLt_cons_iff.mpr (Or.inl (by omega))
        · exact lexLt_cons_iff.mpr (Or.inr ⟨by omega, ih bs cs h1' h2'⟩)

lemma labelLt_trans {a b c : String} (h1 : labelLt a b) (h2 : labelLt b c) :
    labelLt a c := by
  unfold labelLt at h1 h2 ⊢
  rcases h1 with h1 | ⟨e1, l1⟩ | ⟨p1, s1⟩ <;>
    rcases h2 with h2 | ⟨e2, l2⟩ | ⟨p2, s2⟩
  · exact Or.inl (by omega)
  · exact Or.inl (by omega)
  · exact Or.inl (by rw [← p2]; exact h1)
  · exact Or.inl (by omega)
  · exact Or.inr (Or.inl ⟨by omega, lexLt_trans _ _ _ l1 l2⟩)
  · exact Or.inr (Or.inl ⟨by rw [← p2]; exact e1, by rw [← p2]; exact l1⟩)
  · exact Or.inl (by rw [p1]; exact h2)
  · exact Or.inr (Or.inl ⟨by rw [p1]; exact e2, by rw [p1]; exact l2⟩)
  · exact Or.inr (Or.inr ⟨p1.trans p2, lt_trans s1 s2⟩)

/-- The prefix increment keeps letters in A–Z and strictly enlarges the
prefix in the (length, lexicographic) order. -/
lemma incPfx_spec (p : List Char) (h : ∀ c ∈ p, isUpperAZ c = true) :
    (∀ c ∈ incPfx p, isUpperAZ c = true) ∧
    (p.length < (incPfx p).length ∨
      (p.length = (incPfx p).length ∧ lexLt p (incPfx p) = true)) := by
  have h' : ∀ c ∈ p.reverse, isUpperAZ c = true :=
    fun c hc => h c (List.mem_reverse.mp hc)
  rcases incRev_spec p.reverse h' with ⟨h1, h2⟩ | ⟨n, c, rest, h1, hu, hne, h2⟩
  · have hinc : incPfx p = List.replicate (p.reverse.length + 1) 'A' := by
      unfold incPfx
      rw [h2, List.reverse_replicate]
    constructor
    · intro d hd
      rw [hinc] at hd
      rw [List.eq_of_mem_replicate hd]
      decide
    · left
      rw [hinc]
      simp
  · have hp : p = rest.reverse ++ c :: List.replicate n 'Z' := by
      have := congrArg List.reverse h1
      rw [List.reverse_reverse] at this
      rw [this]
      simp [List.reverse_replicate, List.reverse_cons, List.append_assoc]
    have hinc : incPfx p = rest.reverse ++ succChar c :: List.replicate n 'A' := by
      unfold incPfx
      rw [h2]
      simp [List.reverse_replicate, List.reverse_cons, List.append_assoc]
    have hrest : ∀ d ∈ rest, isUpperAZ d = true := by
      intro d hd
      exact h' d (by rw [h1]; simp [hd])
    constructor
    · intro d hd
      rw [hinc] at hd
      rcases List.mem_append.mp hd with hd | hd
      · exact hrest d (List.mem_reverse.mp hd)
      · rcases List.mem_cons.mp hd with hd | hd
        · rw [hd]; exact isUpperAZ_succChar hu hne
        · rw [List.eq_of_mem_replicate hd]; decide
    · right
      constructor
      · rw [hinc]
        conv_lhs => rw [hp]
        simp
      · rw [hinc]
        conv_lhs => rw [hp]
        exact lexLt_middle _ _ _
          (by rw [succChar_toNat (upper_ne_Z_bounds hu hne).2]; omega)

/-! ## The main step lemma for `next_id` -/

lemma mk_data (l : List Char) : (String.mk l).data = l := rfl

lemma labelDigits_length {s : String} (h : 3 ≤ s.data.length) :
    (labelDigits s).length = 3 := by
  simp only [labelDigits, List.length_drop]
  omega

lemma ne_empty_of_len {s : String} (h : 3 ≤ s.data.length) : s ≠ "" := by
  rintro rfl
  exact absurd h (by decide)

lemma labelPfx_mk (p d : List Char) (hd : d.length = 3) :
    labelPfx ⟨p ++ d⟩ = p := by
  simp only [labelPfx, mk_data, List.length_append, hd]
  have h3 : p.length + 3 - 3 = p.length := by omega
  rw [h3, List.take_left]

lemma labelDigits_mk (p d : List Char) (hd : d.length = 3) :
    labelDigits ⟨p ++ d⟩ = d := by
  simp only [labelDigits, mk_data, List.length_append, hd]
  have h3 : p.length + 3 - 3 = p.length := by omega
  rw [h3, List.drop_left]

/-- One step of `next_id` on a well-formed label succeeds, produces a
well-formed, strictly larger label, and performs exactly the documented
increment: suffix `+ 1` below 999, otherwise suffix reset to 1 with the
prefix incremented (an empty prefix becoming `"A"`). -/
lemma nextId_step (s : String) (hwf : wellFormedLabel s) :
    ∃ t, nextId? (some s) = some t ∧ wellFormedLabel t ∧ labelLt s t ∧
      labelPfx t = (if suffixVal s = 999 then
          (if labelPfx s = [] then ['A'] else incPfx (labelPfx s))
        else labelPfx s) ∧
      suffixVal t = (if suffixVal s = 999 then 1 else suffixVal s + 1) := by
  obtain ⟨hlen, hup, hdig, hs1, hs999⟩ := hwf
  have hne : s ≠ "" := ne_empty_of_len hlen
  have hdl : (labelDigits s).length = 3 := labelDigits_length hlen
  have hdne : labelDigits s ≠ [] := by
    intro h
    rw [h] at hdl
    simp at hdl
  have hpi : pyInt? ⟨labelDigits s⟩ = some ((suffixVal s : Nat) : Int) :=
    pyInt_of_digits _ hdne hdig
  have hcomp : nextId? (some s) =
      (if (suffixVal s : Int) + 1 > 999 then
        some ⟨(if labelPfx s = [] then ['A'] else incPfx (labelPfx s)) ++ pyFmt03 1⟩
      else some ⟨labelPfx s ++ pyFmt03 ((suffixVal s : Int) + 1)⟩) := by
    simp only [nextId?, if_neg hne]
    rw [show (⟨s.data.drop (s.data.length - 3)⟩ : String) = ⟨labelDigits s⟩ from rfl,
      hpi]
    rfl
  by_cases hcase : suffixVal s = 999
  · have hgt : ((suffixVal s : Int) + 1 > 999) := by
      rw [hcase]
      norm_num
    have hf1 : pyFmt03 1 = ['0', '0', '1'] := by decide
    rw [hcomp, if_pos hgt, hf1]
    have hup' : ∀ c ∈ (if labelPfx s = [] then ['A'] else incPfx (labelPfx s)),
        isUpperAZ c = true := by
      split_ifs with he
      · intro c hc
        rw [List.mem_singleton.mp hc]
        decide
      · exact (incPfx_spec _ hup).1
    have hord : (labelPfx s).length <
          (if labelPfx s = [] then ['A'] else incPfx (labelPfx s)).length ∨
        ((labelPfx s).length =
            (if labelPfx s = [] then ['A'] else incPfx (labelPfx s)).length ∧
          lexLt (labelPfx s)
            (if labelPfx s = [] then ['A'] else incPfx (labelPfx s)) = true) := by
      split_ifs with he
      · left
        rw [he]
        simp
      · exact (incPfx_spec _ hup).2
    have hpfx := labelPfx_mk (if labelPfx s = [] then ['A'] else incPfx (labelPfx s))
      ['0', '0', '1'] (by decide)
    have hdgs := labelDigits_mk (if labelPfx s = [] then ['A'] else incPfx (labelPfx s))
      ['0', '0', '1'] (by decide)
    refine ⟨_, rfl, ⟨?_, ?_, ?_, ?_, ?_⟩, ?_, ?_, ?_⟩
    · simp [mk_data]
    · rw [hpfx]
      exact hup'
    · rw [hdgs]
      decide
    · show 1 ≤ digitsToNat (labelDigits _)
      rw [hdgs]
      decide
    · show digitsToNat (labelDigits _) ≤ 999
      rw [hdgs]
      decide
    · unfold labelLt
      rw [hpfx]
      rcases hord with hord | hord
      · exact Or.inl hord
      · exact Or.inr (Or.inl hord)
    · rw [hpfx, if_pos hcase]
    · show digitsToNat (labelDigits _) = _
      rw [hdgs, if_pos hcase]
      decide
  · have hle : ¬ ((suffixVal s : Int) + 1 > 999) := by
      have : suffixVal s ≤ 998 := by omega
      omega
    have hcast : ((suffixVal s : Int) + 1) = ((suffixVal s + 1 : Nat) : Int) := by
      push_cast
      ring
    rw [hcomp, if_neg hle, hcast]
    obtain ⟨hl3, hdall, hval⟩ := pyFmt03_spec (suffixVal s + 1) (by omega)
    have hpfx := labelPfx_mk (labelPfx s) (pyFmt03 ((suffixVal s + 1 : Nat) : Int)) hl3
    have hdgs := labelDigits_mk (labelPfx s) (pyFmt03 ((suffixVal s + 1 : Nat) : Int)) hl3
    refine ⟨_, rfl, ⟨?_, ?_, ?_, ?_, ?_⟩, ?_, ?_, ?_⟩
    · simp only [mk_data, List.length_append, hl3]
      omega
    · rw [hpfx]
      exact hup
    · rw [hdgs]
      exact hdall
    · show 1 ≤ digitsToNat (labelDigits _)
      rw [hdgs, hval]
      omega
    · show digitsToNat (labelDigits _) ≤ 999
      rw [hdgs, hval]
      omega
    · unfold labelLt
      rw [hpfx]
      refine Or.inr (Or.inr ⟨rfl, ?_⟩)
      show suffixVal s < digitsToNat (labelDigits _)
      rw [hdgs, hval]
      omega
    · rw [hpfx, if_neg hcase]
    · show digitsToNat (labelDigits _) = _
      rw [hdgs, hval, if_neg hcase]

/-! ## Startup recovery and the scraper loop (main.py lines 40–66, 109,
119–161) -/

/-- A table row: the text of each cell's first paragraph, `none` when the
cell has no readable text node. -/
abbrev Row := List (Option String)

/-- The `try` block of lines 44–51: read the first cell's text of the last
row; any structural failure (`IndexError`/`AttributeError`, all caught by
`except Exception`) yields `None`. -/
def recoverLastId (rows : List Row) : Option String :=
  match rows.getLast? with
  | none => none
  | some row =>
    match row.head? with
    | none => none
    | some t => t

/-- The value of `last_id` after lines 40–66: `none` input models a missing
backing file (a fresh document is created, `last_id = None`). -/
def startupLastId : Option (List Row) → Option String
  | none => none
  | some rows => recoverLastId rows

/-- The pending label after line 109 (`last_id = next_id(last_id)`); a
`none` result models the process crashing on an uncaught `ValueError`. -/
def startupPending (doc? : Option (List Row)) : Option String :=
  nextId? (startupLastId doc?)

/-- The header row written when a new document is created (lines 59–64). -/
def headerRow : Row := [some "ID", some "Subreddit", some "Title", some "URL"]

/-- The fields of a submission used by the loop. -/
structure Post where
  id : String
  subreddit : String
  title : String
deriving DecidableEq

/-- The row built for a post in lines 129–149. -/
def makeRow (lastId : String) (p : Post) : Row :=
  [some lastId, some p.subreddit, some p.title,
   some ("https://redd.it/" ++ p.id)]

/-- In-memory state of the scraper between loop iterations. -/
structure ScraperState where
  lastId : String
  seenPosts : List String
  tableRows : List Row
  disk : List Row
deriving DecidableEq

/-- One iteration of the loop of lines 121–161 on post `p`.  `saveOk` says
whether `doc.save` succeeds; `Except.error d` models the run aborting with
an uncaught exception while the backing file holds `d` (a failed save
leaves the previous disk contents; a `ValueError` in `next_id` happens
after the save). -/
def step (saveOk : Bool) (st : ScraperState) (p : Post) :
    Except (List Row) ScraperState :=
  if st.seenPosts.contains p.id then Except.ok st
  else
    let rows := st.tableRows ++ [makeRow st.lastId p]
    if saveOk then
      match nextId? (some st.lastId) with
      | some l => Except.ok ⟨l, p.id :: st.seenPosts, rows, rows⟩
      | none => Except.error rows
    else Except.error st.disk

/-! ## Sequence lemmas -/

lemma seqO_wf : ∀ n, ∃ s, seqO n = some s ∧ wellFormedLabel s := by
  intro n
  induction n with
  | zero => exact ⟨"A001", rfl, by decide⟩
  | succ n ih =>
    obtain ⟨s, hs, hwf⟩ := ih
    obtain ⟨t, ht, htwf, _, _, _⟩ := nextId_step s hwf
    exact ⟨t, by simp [seqO, hs, ht], htwf⟩

lemma seqO_succ_lt (n : Nat) {a b : String} (ha : seqO n = some a)
    (hb : seqO (n + 1) = some b) : labelLt a b := by
  obtain ⟨s, hs, hwf⟩ := seqO_wf n
  rw [hs] at ha
  obtain rfl : s = a := Option.some.inj ha
  obtain ⟨t, ht, _, hlt, _, _⟩ := nextId_step s hwf
  rw [show seqO (n + 1) = nextId? (some s) by simp [seqO, hs], ht] at hb
  obtain rfl : t = b := Option.some.inj hb
  exact hlt

/-- A three-digit digit string with value 1 is exactly "001". -/
lemma digits_eq_001 {d : List Char} (hlen : d.length = 3)
    (hdig : ∀ c ∈ d, isDigitCh c = true) (hval : digitsToNat d = 1) :
    d = ['0', '0', '1'] := by
  rcases d with _ | ⟨a, _ | ⟨b, _ | ⟨c, rest⟩⟩⟩
  · simp at hlen
  · simp at hlen
  · simp at hlen
  · have hrest : rest = [] := by
      simp only [List.length_cons] at hlen
      exact List.length_eq_zero.mp (by omega)
    subst hrest
    have ha := hdig a (by simp)
    have hb := hdig b (by simp)
    have hc := hdig c (by simp)
    simp only [isDigitCh, Bool.and_eq_true, decide_eq_true_eq] at ha hb hc
    simp only [digitsToNat, List.foldl_cons, List.foldl_nil, digitVal] at hval
    have ha' : a = '0' := char_toNat_inj (show a.toNat = Char.toNat '0' by
      have : Char.toNat '0' = 48 := rfl
      omega)
    have hb' : b = '0' := char_toNat_inj (show b.toNat = Char.toNat '0' by
      have : Char.toNat '0' = 48 := rfl
      omega)
    have hc' : c = '1' := char_toNat_inj (show c.toNat = Char.toNat '1' by
      have : Char.toNat '1' = 49 := rfl
      omega)
    rw [ha', hb', hc']

/-- The pending label after a startup that finds a last row whose first
cell reads `L` is `next_id(L)` (helper shared by several claims). -/
lemma startupPending_of_lastRow {rows : List Row} {r : Row} {L : String}
    (hlast : rows.getLast? = some r) (hhead : r.head? = some (some L)) :
    startupPending (some rows) = nextId? (some L) := by
  simp [startupPending, startupLastId, recoverLastId, hlast, hhead]

/-- Anatomy of a successful non-duplicate loop iteration (helper). -/
lemma step_ok_inversion {st : ScraperState} {p : Post} {st' : ScraperState}
    (hseen : st.seenPosts.contains p.id = false)
    (hstep : step true st p = Except.ok st') :
    nextId? (some st.lastId) = some st'.lastId ∧
    st'.seenPosts = p.id :: st.seenPosts ∧
    st'.tableRows = st.tableRows ++ [makeRow st.lastId p] ∧
    st'.disk = st.tableRows ++ [makeRow st.lastId p] := by
  simp only [step, hseen, Bool.false_eq_true, if_false, if_true] at hstep
  cases hn : nextId? (some st.lastId) with
  | none =>
    rw [hn] at hstep
    simp at hstep
  | some l =>
    rw [hn] at hstep
    simp only [Except.ok.injEq] at hstep
    rw [← hstep]
    exact ⟨rfl, rfl, rfl, rfl⟩

/-! ## The claims -/

/-- C3: `next_id` applied to `None` (no previously issued label) returns
exactly the label "A001" (main.py lines 76–77). -/
theorem nextId_none_eq_A001 : nextId? none = some "A001" := rfl

/-- C4: on every well-formed label with numeric suffix < 999, `next_id`
keeps the prefix unchanged and returns suffix + 1, rendered zero-padded to
exactly three digits; in particular next_id("A001") = "A002" (see the
witness). -/
theorem nextId_increment_below_999 (s : String) (hwf : wellFormedLabel s)
    (hlt : suffixVal s < 999) :
    ∃ t, nextId? (some s) = some t ∧ labelPfx t = labelPfx s ∧
      suffixVal t = suffixVal s + 1 ∧ (labelDigits t).length = 3 ∧
      (∀ c ∈ labelDigits t, isDigitCh c = true) := by
  obtain ⟨t, ht, htwf, _, hpfx, hsfx⟩ := nextId_step s hwf
  have hne : suffixVal s ≠ 999 := by omega
  refine ⟨t, ht, ?_, ?_, labelDigits_length htwf.1, htwf.2.2.1⟩
  · rw [hpfx, if_neg hne]
  · rw [hsfx, if_neg hne]

/-- Witness for C4 at the documented example "A001" → "A002". -/
theorem nextId_increment_below_999_witness :
    wellFormedLabel "A001" ∧ suffixVal "A001" < 999 ∧
    (∃ t, nextId? (some "A001") = some t ∧ labelPfx t = labelPfx "A001" ∧
      suffixVal t = suffixVal "A001" + 1 ∧ (labelDigits t).length = 3 ∧
      (∀ c ∈ labelDigits t, isDigitCh c = true)) ∧
    nextId? (some "A001") = some "A002" :=
  ⟨by decide, by decide,
    nextId_increment_below_999 "A001" (by decide) (by decide), by decide⟩

/-- C1: on every well-formed label with numeric suffix exactly 999,
`next_id` resets the suffix to "001" and increments the prefix as a
base-26 carry counter (`incPfx`, translated from the source's carry loop;
an empty prefix becomes "A", which `incPfx` also yields); the documented
edge cases A999→B001, Z999→AA001, AZ999→BA001, ZZ999→AAA001 are included
as conjuncts. -/
theorem nextId_rollover_at_999 :
    (∀ s : String, wellFormedLabel s → suffixVal s = 999 →
      ∃ t, nextId? (some s) = some t ∧ labelPfx t = incPfx (labelPfx s) ∧
        labelDigits t = ['0', '0', '1']) ∧
    nextId? (some "A999") = some "B001" ∧
    nextId? (some "Z999") = some "AA001" ∧
    nextId? (some "AZ999") = some "BA001" ∧
    nextId? (some "ZZ999") = some "AAA001" := by
  refine ⟨?_, by decide, by decide, by decide, by decide⟩
  intro s hwf h999
  obtain ⟨t, ht, htwf, _, hpfx, hsfx⟩ := nextId_step s hwf
  refine ⟨t, ht, ?_, ?_⟩
  · rw [hpfx, if_pos h999]
    by_cases he : labelPfx s = []
    · rw [if_pos he, he]
      rfl
    · rw [if_neg he]
  · exact digits_eq_001 (labelDigits_length htwf.1) htwf.2.2.1
      (by rw [show digitsToNat (labelDigits t) = suffixVal t from rfl, hsfx,
        if_pos h999])

/-- Witness for C1 at "A999". -/
theorem nextId_rollover_at_999_witness :
    wellFormedLabel "A999" ∧ suffixVal "A999" = 999 ∧
    (∃ t, nextId? (some "A999") = some t ∧
      labelPfx t = incPfx (labelPfx "A999") ∧ labelDigits t = ['0', '0', '1']) :=
  ⟨by decide, by decide, nextId_rollover_at_999.1 "A999" (by decide) (by decide)⟩

/-- C10: `next_id` maps well-formed labels to well-formed labels (uppercase
prefix, three-digit suffix in 001–999), so iteration from `None` stays in
the set of well-formed labels (`nextId? none = some "A001"`, itself
well-formed, is a conjunct). -/
theorem nextId_wf_closure :
    (∀ s : String, wellFormedLabel s →
      ∃ t, nextId? (some s) = some t ∧ wellFormedLabel t ∧
        (labelDigits t).length = 3) ∧
    (∃ u, nextId? none = some u ∧ wellFormedLabel u) := by
  refine ⟨?_, "A001", rfl, by decide⟩
  intro s hwf
  obtain ⟨t, ht, htwf, _, _, _⟩ := nextId_step s hwf
  exact ⟨t, ht, htwf, labelDigits_length htwf.1⟩

/-- Witness for C10 at "Z999" (a carry case). -/
theorem nextId_wf_closure_witness :
    wellFormedLabel "Z999" ∧
    (∃ t, nextId? (some "Z999") = some t ∧ wellFormedLabel t ∧
      (labelDigits t).length = 3) :=
  ⟨by decide, nextId_wf_closure.1 "Z999" (by decide)⟩

/-- C2: the sequence of labels obtained by iterating `next_id` from `None`
is strictly increasing: any later label is strictly greater than any
earlier one under the (prefix length, lexicographic, suffix) ordering. -/
theorem seq_strict_mono (m n : Nat) (a b : String) (hmn : m < n)
    (ha : seqO m = some a) (hb : seqO n = some b) : labelLt a b := by
  induction n generalizing b with
  | zero => omega
  | succ n ih =>
    rcases Nat.lt_succ_iff_lt_or_eq.mp hmn with h | h
    · obtain ⟨c, hc, _⟩ := seqO_wf n
      exact labelLt_trans (ih c h hc) (seqO_succ_lt n hc hb)
    · subst h
      exact seqO_succ_lt m ha hb

/-- Witness for C2: the first two labels of the sequence. -/
theorem seq_strict_mono_witness :
    seqO 0 = some "A001" ∧ seqO 1 = some "A002" ∧ labelLt "A001" "A002" :=
  ⟨by decide, by decide,
    seq_strict_mono 0 1 "A001" "A002" (by decide) (by decide) (by decide)⟩

/-- C5: if the backing document exists and its last row's first cell holds
label L, the pending label after startup is `next_id(L)`; moreover after
any successful append the disk recovers to exactly the in-memory pending
label, so a restart is idempotent. -/
theorem startup_resume :
    (∀ (rows : List Row) (r : Row) (L : String), rows.getLast? = some r →
      r.head? = some (some L) → startupPending (some rows) = nextId? (some L)) ∧
    (∀ (st : ScraperState) (p : Post) (st' : ScraperState),
      st.seenPosts.contains p.id = false → step true st p = Except.ok st' →
      startupPending (some st'.disk) = some st'.lastId) := by
  constructor
  · intro rows r L hlast hhead
    exact startupPending_of_lastRow hlast hhead
  · intro st p st' hseen hstep
    obtain ⟨hnext, _, _, hdisk⟩ := step_ok_inversion hseen hstep
    have hlast : st'.disk.getLast? = some (makeRow st.lastId p) := by
      rw [hdisk]
      exact List.getLast?_concat _
    have hhead : (makeRow st.lastId p).head? = some (some st.lastId) := rfl
    rw [startupPending_of_lastRow hlast hhead, hnext]

/-- Witness for C5: a document whose last row starts with "A001". -/
theorem startup_resume_witness :
    ([[some "A001"]] : List Row).getLast? = some [some "A001"] ∧
    startupPending (some [[some "A001"]]) = nextId? (some "A001") :=
  ⟨by decide,
    startup_resume.1 [[some "A001"]] [some "A001"] "A001" (by decide) (by decide)⟩

/-- C6 (code bug): a backing document containing only the header row does
NOT resume as if no file existed.  The recovery `try` block succeeds —
the header is the last row, so `last_id` becomes the header text "ID" —
and `next_id("ID")` then raises `ValueError` in `int("ID")` at line 109,
OUTSIDE the `try`, crashing the process instead of starting at "A001". -/
theorem header_only_startup_crash :
    startupLastId (some [headerRow]) = some "ID" ∧
    startupPending (some [headerRow]) = none := by
  constructor
  · rfl
  · decide

/-- C7: if `doc.save` raises while appending a fresh event, the iteration
aborts with the disk unchanged (no label advance happens past the unsaved
row), and the next startup recovers `next_id` of the last successfully
persisted row's label — the failed row consumes no label. -/
theorem save_failure_consumes_no_label :
    ∀ (st : ScraperState) (p : Post) (r : Row) (L : String),
      st.seenPosts.contains p.id = false →
      st.disk.getLast? = some r → r.head? = some (some L) →
      step false st p = Except.error st.disk ∧
      startupPending (some st.disk) = nextId? (some L) := by
  intro st p r L hseen hlast hhead
  constructor
  · simp only [step, hseen, Bool.false_eq_true, if_false]
  · exact startupPending_of_lastRow hlast hhead

/-- Witness for C7: the spec's crash-safety scenario — row "A001" is on
disk, persisting the second event fails, restart recovers
`next_id("A001")` = "A002" rather than "A003". -/
theorem save_failure_consumes_no_label_witness :
    step false
        ⟨"A002", ["k1"], [headerRow, makeRow "A001" ⟨"k1", "a", "T1"⟩],
          [headerRow, makeRow "A001" ⟨"k1", "a", "T1"⟩]⟩ ⟨"k2", "b", "T2"⟩ =
      Except.error [headerRow, makeRow "A001" ⟨"k1", "a", "T1"⟩] ∧
    startupPending (some [headerRow, makeRow "A001" ⟨"k1", "a", "T1"⟩]) =
      nextId? (some "A001") ∧
    nextId? (some "A001") = some "A002" :=
  ⟨(save_failure_consumes_no_label _ ⟨"k2", "b", "T2"⟩
      (makeRow "A001" ⟨"k1", "a", "T1"⟩) "A001" (by decide) (by decide)
      (by decide)).1,
   (save_failure_consumes_no_label
      ⟨"A002", ["k1"], [headerRow, makeRow "A001" ⟨"k1", "a", "T1"⟩],
        [headerRow, makeRow "A001" ⟨"k1", "a", "T1"⟩]⟩ ⟨"k2", "b", "T2"⟩
      (makeRow "A001" ⟨"k1", "a", "T1"⟩) "A001" (by decide) (by decide)
      (by decide)).2,
   by decide⟩

/-- C9: within one run, the first delivery of a source key appends exactly
one row, and a second delivery of the same key is silently skipped — the
state is returned unchanged (no row, no save, no label consumed) and it is
not an error. -/
theorem duplicate_event_one_row :
    ∀ (b : Bool) (st : ScraperState) (p : Post) (st' : ScraperState),
      st.seenPosts.contains p.id = false → step true st p = Except.ok st' →
      st'.tableRows = st.tableRows ++ [makeRow st.lastId p] ∧
      step b st' p = Except.ok st' := by
  intro b st p st' hseen hstep
  obtain ⟨_, hseen', hrows, _⟩ := step_ok_inversion hseen hstep
  refine ⟨hrows, ?_⟩
  have hdup : st'.seenPosts.contains p.id = true := by
    rw [hseen']
    simp
  unfold step
  rw [if_pos hdup]

/-- Witness for C9: one fresh event appended, then redelivered. -/
theorem duplicate_event_one_row_witness :
    step true ⟨"A001", [], [headerRow], [headerRow]⟩ ⟨"k1", "a", "T1"⟩ =
      Except.ok ⟨"A002", ["k1"], [headerRow, makeRow "A001" ⟨"k1", "a", "T1"⟩],
        [headerRow, makeRow "A001" ⟨"k1", "a", "T1"⟩]⟩ ∧
    (⟨"A002", ["k1"], [headerRow, makeRow "A001" ⟨"k1", "a", "T1"⟩],
        [headerRow, makeRow "A001" ⟨"k1", "a", "T1"⟩]⟩ : ScraperState).tableRows =
      [headerRow] ++ [makeRow "A001" ⟨"k1", "a", "T1"⟩] ∧
    step false
        ⟨"A002", ["k1"], [headerRow, makeRow "A001" ⟨"k1", "a", "T1"⟩],
          [headerRow, makeRow "A001" ⟨"k1", "a", "T1"⟩]⟩ ⟨"k1", "a", "T1"⟩ =
      Except.ok ⟨"A002", ["k1"], [headerRow, makeRow "A001" ⟨"k1", "a", "T1"⟩],
        [headerRow, makeRow "A001" ⟨"k1", "a", "T1"⟩]⟩ :=
  ⟨rfl,
    duplicate_event_one_row false ⟨"A001", [], [headerRow], [headerRow]⟩
      ⟨"k1", "a", "T1"⟩
      ⟨"A002", ["k1"], [headerRow, makeRow "A001" ⟨"k1", "a", "T1"⟩],
        [headerRow, makeRow "A001" ⟨"k1", "a", "T1"⟩]⟩ (by decide) rfl⟩

/-- C8 (amended): `next_id` does not reject every malformed label.  A
malformed label whose last three characters are ASCII digits is silently
accepted and a next value is returned — so for "a001" (lowercase letter)
it returns "a002" and for "A000" (suffix outside 001–999) it returns
"A001" — while an input such as "ID", whose last three characters do not
parse as an integer, does fail loudly with an uncaught `ValueError`.
(All three inputs are pure ASCII, where the embedding of `int()` and of
the carry loop is exact.) -/
theorem malformed_labels_not_rejected :
    (¬ wellFormedLabel "a001" ∧ nextId? (some "a001") = some "a002") ∧
    (¬ wellFormedLabel "A000" ∧ nextId? (some "A000") = some "A001") ∧
    (¬ wellFormedLabel "ID" ∧ nextId? (some "ID") = none) := by
  refine ⟨⟨?_, ?_⟩, ⟨?_, ?_⟩, ?_, ?_⟩
  · decide
  · decide
  · decide
  · decide
  · decide
  · decide

/-- C8 counterexample: "a001" is not a well-formed label (lowercase
letter), yet `next_id` returns the label "a002" instead of rejecting. -/
theorem malformed_label_accepted :
    ¬ wellFormedLabel "a001" ∧ nextId? (some "a001") = some "a002" := by
  constructor
  · decide
  · decide

